import Mathlib

set_option maxRecDepth 10000

/-!
Verification of the Nassr backend (src/main.py) against its specification.

The development models the two cores of the program over `List Char` strings:

* the credential lifecycle of the `/activate` endpoint (`activate`), over an
  in-memory store `VALID_CODES : code hash -> expiry`;
* the report-normalization pipeline: `parse_ai_response` (field extraction
  from numbered lines) and `enrich_and_enforce` (word-band enforcement).

Randomness (`random.choice`) is modelled by a stream `picks : Nat -> Nat` of
draws consumed left to right, and the unbounded `while` loop of the padding
phase by an explicit fuel parameter; `none` means the fuel ran out, so a
result that is `none` for every fuel corresponds to non-termination of the
Python loop.  The SHA-256 hex digest `hash_code` is kept as an abstract
parameter `hash : List Char -> List Char` of the credential operations; no
theorem below depends on anything but the places where it is applied.
-/

/-- Python whitespace test used by `str.strip()` / `str.split()` (the ASCII
whitespace characters; the inputs in question contain no exotic Unicode
spaces). -/
def isWs (c : Char) : Bool :=
  c == ' ' || c == '\t' || c == '\n' || c == '\r' || c == '\x0b' || c == '\x0c'

/-- Python `str.strip()`: remove leading and trailing whitespace. -/
def pyStrip (l : List Char) : List Char :=
  List.dropWhile isWs (List.rdropWhile isWs l)

/-- Worker for `words`: `acc` is the reversed current partial word. -/
def wordsAux : List Char → List Char → List (List Char)
  | [], acc => if acc = [] then [] else [acc.reverse]
  | c :: cs, acc =>
    if isWs c then
      if acc = [] then wordsAux cs [] else acc.reverse :: wordsAux cs []
    else wordsAux cs (c :: acc)

/-- Python `str.split()` with no argument: split on whitespace runs, dropping
empty pieces. -/
def words (l : List Char) : List (List Char) := wordsAux l []

/-- Python `" ".join(ws)`. -/
def joinSp : List (List Char) → List Char
  | [] => []
  | [w] => w
  | w :: ws => w ++ ' ' :: joinSp ws

/-- Python `str.split(sep)` for a one-character separator: keeps empty
pieces, always returns at least one piece. -/
def splitOnChar (sep : Char) : List Char → List (List Char)
  | [] => [[]]
  | c :: cs =>
    match splitOnChar sep cs with
    | [] => [[c]]
    | h :: t => if c = sep then [] :: h :: t else (c :: h) :: t

/-- Boolean test that the first list is a leading segment of the second. -/
def pfx : List Char → List Char → Bool
  | [], _ => true
  | _ :: _, [] => false
  | a :: as, b :: bs => a == b && pfx as bs

/-- Python substring membership `needle in hay` on strings. -/
def pyIn (needle : List Char) : List Char → Bool
  | [] => needle.isEmpty
  | c :: t => pfx needle (c :: t) || pyIn needle t

/-- Python `text.replace("  ", " ")`: a single left-to-right pass replacing
each non-overlapping two-space occurrence by one space. -/
def replaceDouble : List Char → List Char
  | [] => []
  | [c] => [c]
  | c :: d :: rest =>
    if c = ' ' ∧ d = ' ' then ' ' :: replaceDouble rest
    else c :: replaceDouble (d :: rest)

/-- The in-memory code store `VALID_CODES : code_hash -> expires_at`
(a Python dict, modelled as a partial map). -/
def Store : Type := List Char → Option Int

/-- Payload of `create_jwt`: `{"type": "activation", "exp": expires_at}`
signed with the process secret (the signature itself plays no role in the
claims below). -/
structure Jwt where
  typ : List Char
  exp : Int
deriving DecidableEq

/-- Model of `create_jwt(expires_at)` from the source. -/
def create_jwt (expires_at : Int) : Jwt :=
  ⟨"activation".data, expires_at⟩

/-- The three error outcomes of the `/activate` endpoint. -/
inductive ActErr
  | CODE_REQUIRED
  | INVALID_CODE
  | CODE_EXPIRED
deriving DecidableEq

/-- HTTP status code attached to each `activate` error in the source
(lines 603, 609, 613 of src/main.py). -/
def ActErr.status : ActErr → Nat
  | .CODE_REQUIRED => 400
  | .INVALID_CODE => 403
  | .CODE_EXPIRED => 403

/-- Successful activation response: the token and its expiry. -/
structure ActOk where
  token : Jwt
  expires_at : Int
deriving DecidableEq

/-- The `/activate` endpoint (src/main.py lines 599-620).  `hash` abstracts
`hash_code` (SHA-256 hex digest); `now` abstracts `datetime.utcnow()`.  The
returned pair is (HTTP result, store after the call): the store loses the
entry on the expired path and is unchanged otherwise. -/
def activate (hash : List Char → List Char) (store : Store) (now : Int)
    (data_code : List Char) : Except ActErr ActOk × Store :=
  let code := pyStrip data_code
  if code = [] then (Except.error ActErr.CODE_REQUIRED, store)
  else
    match store (hash code) with
    | none => (Except.error ActErr.INVALID_CODE, store)
    | some expires_at =>
      if expires_at < now then
        (Except.error ActErr.CODE_EXPIRED, fun k => if k = hash code then none else store k)
      else
        (Except.ok ⟨create_jwt expires_at, expires_at⟩, store)

/-- A concrete instance of the abstract digest, used to evaluate the model at
specific inputs. -/
def hashId : List Char → List Char := fun l => l

/-- A concrete store holding one unexpired code (expiry 100). -/
def storeOne : Store := fun k => if k = "AB12CD".data then some 100 else none

/-- The empty store. -/
def storeEmpty : Store := fun _ => none

/-! ### Generic list lemmas about stripping -/

theorem dropWhile_append_all (p : Char → Bool) (a b : List Char)
    (h : ∀ c ∈ a, p c = true) :
    List.dropWhile p (a ++ b) = List.dropWhile p b := by
  induction a with
  | nil => rfl
  | cons c t ih =>
    rw [List.cons_append, List.dropWhile_cons, if_pos (h c (by simp))]
    exact ih (fun x hx => h x (by simp [hx]))

theorem rdropWhile_append_all (p : Char → Bool) (a b : List Char)
    (h : ∀ c ∈ b, p c = true) :
    List.rdropWhile p (a ++ b) = List.rdropWhile p a := by
  induction b using List.reverseRecOn with
  | nil => simp
  | append_singleton b' x ih =>
    rw [← List.append_assoc, List.rdropWhile_concat_pos p _ x (h x (by simp))]
    exact ih (fun c hc => h c (by simp [hc]))

theorem rdropWhile_append_left (p : Char → Bool) (a b : List Char)
    (h : List.rdropWhile p b ≠ []) :
    List.rdropWhile p (a ++ b) = a ++ List.rdropWhile p b := by
  induction b using List.reverseRecOn with
  | nil => simp at h
  | append_singleton b' x ih =>
    by_cases hx : p x
    · rw [List.rdropWhile_concat_pos p b' x hx] at h
      rw [← List.append_assoc, List.rdropWhile_concat_pos p _ x hx,
        List.rdropWhile_concat_pos p b' x hx]
      exact ih h
    · rw [← List.append_assoc, List.rdropWhile_concat_neg p _ x hx,
        List.rdropWhile_concat_neg p b' x hx, List.append_assoc]

theorem pyStrip_pad (pre post raw : List Char) (hpre : ∀ c ∈ pre, isWs c = true)
    (hpost : ∀ c ∈ post, isWs c = true) :
    pyStrip (pre ++ raw ++ post) = pyStrip raw := by
  unfold pyStrip
  rw [rdropWhile_append_all isWs (pre ++ raw) post hpost]
  by_cases hr : List.rdropWhile isWs raw = []
  · have hraw : ∀ c ∈ raw, isWs c = true := List.rdropWhile_eq_nil_iff.mp hr
    rw [rdropWhile_append_all isWs pre raw hraw, hr,
      List.rdropWhile_eq_nil_iff.mpr hpre]
  · rw [rdropWhile_append_left isWs pre raw hr, dropWhile_append_all isWs pre _ hpre]

theorem pyStrip_rdropWhile (l : List Char) :
    pyStrip (List.rdropWhile isWs l) = pyStrip l := by
  unfold pyStrip
  rw [List.rdropWhile_idempotent]

theorem getLast_eq_of_suffix {y m : List Char} (hy : y ≠ []) (hs : y <:+ m) :
    ∀ hm : m ≠ [], y.getLast hy = m.getLast hm := by
  obtain ⟨u, hu⟩ := hs
  subst hu
  intro hm
  exact (List.getLast_append' u y hy).symm

theorem pyStrip_idem (l : List Char) : pyStrip (pyStrip l) = pyStrip l := by
  unfold pyStrip
  have h1 : List.rdropWhile isWs (List.dropWhile isWs (List.rdropWhile isWs l)) =
      List.dropWhile isWs (List.rdropWhile isWs l) := by
    rw [List.rdropWhile_eq_self_iff]
    intro hne
    have hm : List.rdropWhile isWs l ≠ [] := by
      intro h0
      rw [h0] at hne
      exact hne rfl
    have hlast := List.rdropWhile_last_not isWs l hm
    rwa [← getLast_eq_of_suffix hne (List.dropWhile_suffix isWs) hm] at hlast
  rw [h1, List.dropWhile_idempotent]

/-! ### Claims C1, C6, C7, C10: the activate endpoint -/

/-- C1: redemption is claimed to be single-use, but the code marks nothing
used and evicts nothing on success; with one valid unexpired code in the
store, two successive activate calls both succeed and both return a token,
so exactly-one-success is false. -/
theorem activate_second_call_succeeds :
    (activate hashId storeOne 50 "AB12CD".data).1 = Except.ok ⟨create_jwt 100, 100⟩ ∧
    (activate hashId ((activate hashId storeOne 50 "AB12CD".data).2) 50 "AB12CD".data).1 =
      Except.ok ⟨create_jwt 100, 100⟩ := by
  constructor <;> rfl

/-- C6 counterexample: a code whose hash is absent from the store is rejected
with status 403 (INVALID_CODE), not 404 as claimed. -/
theorem unknown_code_status_403_not_404 :
    (activate hashId storeEmpty 0 "XYZ".data).1 = Except.error ActErr.INVALID_CODE ∧
    ActErr.status ActErr.INVALID_CODE = 403 ∧ ActErr.status ActErr.INVALID_CODE ≠ 404 := by
  exact ⟨rfl, rfl, by decide⟩

/-- C6 (amended): activate fails with 400 CODE_REQUIRED on an empty (trimmed)
code, 403 INVALID_CODE on a code whose hash is absent from the store, and
403 CODE_EXPIRED on an expired code; no used-code state and no 404/410
statuses exist. -/
theorem activate_error_statuses (hash : List Char → List Char) (store : Store)
    (now : Int) (raw : List Char) :
    (pyStrip raw = [] →
      (activate hash store now raw).1 = Except.error ActErr.CODE_REQUIRED ∧
      ActErr.status ActErr.CODE_REQUIRED = 400) ∧
    (pyStrip raw ≠ [] → store (hash (pyStrip raw)) = none →
      (activate hash store now raw).1 = Except.error ActErr.INVALID_CODE ∧
      ActErr.status ActErr.INVALID_CODE = 403) ∧
    (∀ e : Int, pyStrip raw ≠ [] → store (hash (pyStrip raw)) = some e → e < now →
      (activate hash store now raw).1 = Except.error ActErr.CODE_EXPIRED ∧
      ActErr.status ActErr.CODE_EXPIRED = 403) := by
  refine ⟨fun h0 => ?_, fun h1 h2 => ?_, fun e h1 h2 h3 => ?_⟩
  · simp [activate, h0, ActErr.status]
  · simp [activate, h1, h2, ActErr.status]
  · simp [activate, h1, h2, h3, ActErr.status]

/-- Witness for `activate_error_statuses`: the three error paths at concrete
inputs (whitespace-only code, unknown code, expired code). -/
theorem activate_error_statuses_witness :
    ((activate hashId storeOne 0 "   ".data).1 = Except.error ActErr.CODE_REQUIRED ∧
      ActErr.status ActErr.CODE_REQUIRED = 400) ∧
    ((activate hashId storeEmpty 0 "ZZ".data).1 = Except.error ActErr.INVALID_CODE ∧
      ActErr.status ActErr.INVALID_CODE = 403) ∧
    ((activate hashId storeOne 200 "AB12CD".data).1 = Except.error ActErr.CODE_EXPIRED ∧
      ActErr.status ActErr.CODE_EXPIRED = 403) :=
  ⟨(activate_error_statuses hashId storeOne 0 ("   ".data)).1 (by decide),
   (activate_error_statuses hashId storeEmpty 0 ("ZZ".data)).2.1 (by decide) rfl,
   (activate_error_statuses hashId storeOne 200 ("AB12CD".data)).2.2 100
     (by decide) (by decide) (by decide)⟩

/-- C7 counterexample: the code only trims (no uppercasing), so redeeming the
lowercase variant of a stored display code behaves differently from the
display code itself: the former is an unknown hash, the latter succeeds. -/
theorem lowercase_variant_not_equivalent :
    (activate hashId storeOne 50 "ab12cd".data).1 = Except.error ActErr.INVALID_CODE ∧
    (activate hashId storeOne 50 "AB12CD".data).1 = Except.ok ⟨create_jwt 100, 100⟩ ∧
    (Except.error ActErr.INVALID_CODE : Except ActErr ActOk) ≠
      Except.ok ⟨create_jwt 100, 100⟩ := by
  exact ⟨rfl, rfl, fun h => Except.noConfusion h⟩

/-- C7 (amended): activate normalizes only by trimming surrounding
whitespace before hashing: a whitespace-padded variant of any input behaves
identically (same result and same final store), while a variant whose
trimmed form hashes to a key absent from the store (as a lowercased display
value does under the real digest) fails INVALID_CODE even though the
original succeeds. -/
theorem activate_trim_only_normalization (hash : List Char → List Char) (store : Store)
    (now : Int) (pre post raw : List Char) :
    ((∀ c ∈ pre, isWs c = true) → (∀ c ∈ post, isWs c = true) →
      activate hash store now (pre ++ raw ++ post) = activate hash store now raw) ∧
    (∀ lc : List Char, ∀ e : Int,
      store (hash (pyStrip lc)) = none → store (hash (pyStrip raw)) = some e →
      pyStrip lc ≠ [] → pyStrip raw ≠ [] → ¬ e < now →
      (activate hash store now lc).1 = Except.error ActErr.INVALID_CODE ∧
      (activate hash store now raw).1 = Except.ok ⟨create_jwt e, e⟩) := by
  constructor
  · intro hpre hpost
    have h := pyStrip_pad pre post raw hpre hpost
    simp only [activate, h]
  · intro lc e hlc hraw hne hrawne hexp
    constructor
    · simp [activate, hne, hlc]
    · simp [activate, hrawne, hraw, hexp]

/-- Witness for `activate_trim_only_normalization` at concrete inputs. -/
theorem activate_trim_only_normalization_witness :
    (activate hashId storeOne 50 (" ".data ++ "AB12CD".data ++ " ".data) =
      activate hashId storeOne 50 "AB12CD".data) ∧
    ((activate hashId storeOne 50 "ab12cd".data).1 = Except.error ActErr.INVALID_CODE ∧
      (activate hashId storeOne 50 "AB12CD".data).1 = Except.ok ⟨create_jwt 100, 100⟩) :=
  ⟨(activate_trim_only_normalization hashId storeOne 50 (" ".data) (" ".data)
      ("AB12CD".data)).1 (by decide) (by decide),
   (activate_trim_only_normalization hashId storeOne 50 (" ".data) (" ".data)
      ("AB12CD".data)).2 ("ab12cd".data) 100 (by decide) (by decide) (by decide)
      (by decide) (by decide)⟩

/-- C10: activating an expired code removes its store entry before the error
is raised, so a second activation of the same code fails INVALID_CODE
(unknown), not CODE_EXPIRED. -/
theorem expired_code_evicted_then_unknown (hash : List Char → List Char) (store : Store)
    (now : Int) (raw : List Char) (e : Int)
    (hne : pyStrip raw ≠ []) (hget : store (hash (pyStrip raw)) = some e)
    (hexp : e < now) :
    (activate hash store now raw).1 = Except.error ActErr.CODE_EXPIRED ∧
    (activate hash store now raw).2 (hash (pyStrip raw)) = none ∧
    (activate hash ((activate hash store now raw).2) now raw).1 =
      Except.error ActErr.INVALID_CODE := by
  have h2 : (activate hash store now raw).2 = fun k =>
      if k = hash (pyStrip raw) then none else store k := by
    simp [activate, hne, hget, hexp]
  refine ⟨by simp [activate, hne, hget, hexp], by rw [h2]; simp, ?_⟩
  rw [h2]
  simp [activate, hne]

/-- Witness for `expired_code_evicted_then_unknown` at a concrete store. -/
theorem expired_code_evicted_then_unknown_witness :
    (activate hashId storeOne 200 "AB12CD".data).1 = Except.error ActErr.CODE_EXPIRED ∧
    (activate hashId storeOne 200 "AB12CD".data).2 (hashId (pyStrip ("AB12CD".data))) = none ∧
    (activate hashId ((activate hashId storeOne 200 "AB12CD".data).2) 200 "AB12CD".data).1 =
      Except.error ActErr.INVALID_CODE :=
  expired_code_evicted_then_unknown hashId storeOne 200 ("AB12CD".data) 100
    (by decide) (by decide) (by decide)

/-! ### The field extractor (parse_ai_response, extraction part) -/

/-- The 7 report fields of `parse_ai_response` (keys in insertion order:
goal, summary, steps, strategies, strengths, improve, recomm). -/
structure Fields where
  goal : List Char
  summary : List Char
  steps : List Char
  strategies : List Char
  strengths : List Char
  improve : List Char
  recomm : List Char
deriving DecidableEq

/-- The all-empty field dictionary the parser starts from. -/
def emptyFields : Fields := ⟨[], [], [], [], [], [], []⟩

/-- Field selected by slot index (0 = goal, ..., 6 = recomm). -/
def Fields.get (f : Fields) (k : Fin 7) : List Char :=
  match k with
  | ⟨0, _⟩ => f.goal
  | ⟨1, _⟩ => f.summary
  | ⟨2, _⟩ => f.steps
  | ⟨3, _⟩ => f.strategies
  | ⟨4, _⟩ => f.strengths
  | ⟨5, _⟩ => f.improve
  | ⟨6, _⟩ => f.recomm
  | ⟨n + 7, h⟩ => absurd h (by omega)

/-- Update the field of slot `k`. -/
def Fields.set (f : Fields) (k : Fin 7) (v : List Char) : Fields :=
  match k with
  | ⟨0, _⟩ => ⟨v, f.summary, f.steps, f.strategies, f.strengths, f.improve, f.recomm⟩
  | ⟨1, _⟩ => ⟨f.goal, v, f.steps, f.strategies, f.strengths, f.improve, f.recomm⟩
  | ⟨2, _⟩ => ⟨f.goal, f.summary, v, f.strategies, f.strengths, f.improve, f.recomm⟩
  | ⟨3, _⟩ => ⟨f.goal, f.summary, f.steps, v, f.strengths, f.improve, f.recomm⟩
  | ⟨4, _⟩ => ⟨f.goal, f.summary, f.steps, f.strategies, v, f.improve, f.recomm⟩
  | ⟨5, _⟩ => ⟨f.goal, f.summary, f.steps, f.strategies, f.strengths, v, f.recomm⟩
  | ⟨6, _⟩ => ⟨f.goal, f.summary, f.steps, f.strategies, f.strengths, f.improve, v⟩
  | ⟨n + 7, h⟩ => absurd h (by omega)

/-- A line opens slot k exactly when the stripped line starts with the Latin
digit k+1 followed by a dot, or the matching Arabic-Indic digit followed by
a dot (the elif chain of src/main.py lines 730-770). -/
def opensSlot (line : List Char) : Option (Fin 7) :=
  if pfx ['1', '.'] line || pfx ['١', '.'] line then some 0
  else if pfx ['2', '.'] line || pfx ['٢', '.'] line then some 1
  else if pfx ['3', '.'] line || pfx ['٣', '.'] line then some 2
  else if pfx ['4', '.'] line || pfx ['٤', '.'] line then some 3
  else if pfx ['5', '.'] line || pfx ['٥', '.'] line then some 4
  else if pfx ['6', '.'] line || pfx ['٦', '.'] line then some 5
  else if pfx ['7', '.'] line || pfx ['٧', '.'] line then some 6
  else none

/-- The tuple of digits of the continuation guard
`line.startswith(('1',...,'7','١',...,'٧'))` (src/main.py line 772). -/
def digitChars : List Char :=
  ['1', '2', '3', '4', '5', '6', '7', '١', '٢', '٣', '٤', '٥', '٦', '٧']

/-- Whether the line starts with one of the 14 digit characters. -/
def startsDigit (line : List Char) : Bool :=
  match line with
  | [] => false
  | c :: _ => digitChars.any (fun d => c == d)

/-- Parser state: fields written so far, currently open slot, buffered lines
of the open slot. -/
structure PState where
  fields : Fields
  current : Option (Fin 7)
  buf : List (List Char)
deriving DecidableEq

/-- Flush the open buffer into its slot
(`parsed[current_field] = ' '.join(field_content).strip()`). -/
def flushState (st : PState) : Fields :=
  match st.current with
  | none => st.fields
  | some k => if st.buf = [] then st.fields else st.fields.set k (pyStrip (joinSp st.buf))

/-- One iteration of the parser loop over a raw line (the line is stripped
first; `line[2:]` is the remainder after the two marker characters). -/
def lineStep (st : PState) (rawLine : List Char) : PState :=
  match opensSlot (pyStrip rawLine) with
  | some k => ⟨flushState st, some k, [pyStrip ((pyStrip rawLine).drop 2)]⟩
  | none =>
    if st.current.isSome = true ∧ pyStrip rawLine ≠ [] ∧
        startsDigit (pyStrip rawLine) = false then
      ⟨st.fields, st.current, st.buf ++ [pyStrip rawLine]⟩
    else st

/-- The marker-extraction part of `parse_ai_response` (src/main.py lines
712-777): split on newlines, scan lines, flush the last open buffer. -/
def rawParse (text : List Char) : Fields :=
  flushState ((splitOnChar '\n' text).foldl lineStep ⟨emptyFields, none, []⟩)

/-! ### Lemmas about Fields and the parser -/

theorem Fields.get_set_self (f : Fields) (k : Fin 7) (v : List Char) :
    (f.set k v).get k = v := by
  fin_cases k <;> rfl

theorem Fields.get_set_ne (f : Fields) (j k : Fin 7) (v : List Char) (h : j ≠ k) :
    (f.set j v).get k = f.get k := by
  fin_cases j <;> fin_cases k <;> first | rfl | exact absurd rfl h

theorem splitOnChar_single (sep : Char) (l : List Char) (h : sep ∉ l) :
    splitOnChar sep l = [l] := by
  induction l with
  | nil => rfl
  | cons c t ih =>
    have hc : ¬ c = sep := fun he => h (he ▸ List.mem_cons_self c t)
    have ht := ih (fun hm => h (List.mem_cons_of_mem c hm))
    simp [splitOnChar, ht, hc]

theorem pyStrip_cons2 (d e : Char) (rest : List Char) (hd : isWs d = false)
    (he : isWs e = false) :
    pyStrip (d :: e :: rest) = d :: e :: List.rdropWhile isWs rest := by
  have hde : d :: e :: rest = [d, e] ++ rest := rfl
  unfold pyStrip
  by_cases hr : List.rdropWhile isWs rest = []
  · have hall : ∀ c ∈ rest, isWs c = true := List.rdropWhile_eq_nil_iff.mp hr
    rw [hde, rdropWhile_append_all isWs [d, e] rest hall, hr]
    have hself : List.rdropWhile isWs [d, e] = [d, e] := by
      rw [List.rdropWhile_eq_self_iff]
      intro hne
      simp [List.getLast, he]
    rw [hself]
    simp [List.dropWhile_cons, hd]
  · rw [hde, rdropWhile_append_left isWs [d, e] rest hr]
    simp [List.dropWhile_cons, hd, he]

theorem pfx2_false (a b : Char) (as x : List Char) (h : ¬ b = a) :
    pfx (a :: as) (b :: x) = false := by
  have hab : (a == b) = false := beq_eq_false_iff_ne.mpr (fun he => h he.symm)
  simp [pfx, hab]

theorem opensSlot_none_of_not_digit (l : List Char) (h : startsDigit l = false) :
    opensSlot l = none := by
  cases l with
  | nil => rfl
  | cons c t =>
    simp only [startsDigit, digitChars, List.any_cons, List.any_nil, Bool.or_false,
      Bool.or_eq_false_iff, beq_eq_false_iff_ne, ne_eq] at h
    obtain ⟨h1, h2, h3, h4, h5, h6, h7, h8, h9, h10, h11, h12, h13, h14⟩ := h
    simp only [opensSlot,
      pfx2_false '1' c ['.'] t h1, pfx2_false '2' c ['.'] t h2,
      pfx2_false '3' c ['.'] t h3, pfx2_false '4' c ['.'] t h4,
      pfx2_false '5' c ['.'] t h5, pfx2_false '6' c ['.'] t h6,
      pfx2_false '7' c ['.'] t h7, pfx2_false '١' c ['.'] t h8,
      pfx2_false '٢' c ['.'] t h9, pfx2_false '٣' c ['.'] t h10,
      pfx2_false '٤' c ['.'] t h11, pfx2_false '٥' c ['.'] t h12,
      pfx2_false '٦' c ['.'] t h13, pfx2_false '٧' c ['.'] t h14]
    simp

/-- Marker characters and the slot each one opens. -/
def markerTable : List (Char × Fin 7) :=
  [('1', 0), ('١', 0), ('2', 1), ('٢', 1), ('3', 2), ('٣', 2), ('4', 3), ('٤', 3),
   ('5', 4), ('٥', 4), ('6', 5), ('٦', 5), ('7', 6), ('٧', 6)]

/-! ### Claims C5 and C8: line classification in the extractor -/

/-- C5 counterexample: while field 1 is open, the non-empty line "13 b" does
not open a field (no dot after the first digit) yet it is NOT appended as a
continuation line: it is discarded because it starts with the digit '1', so
the claim that such a line is never discarded fails. -/
theorem digit_led_line_discarded :
    (rawParse ("1. a\n13 b".data)).goal = "a".data ∧
    (rawParse ("1. a\n13 b".data)).goal ≠ "a 13 b".data := by
  constructor
  · decide
  · decide

/-- C5 (amended): while a field is open, a non-empty stripped line that does
not start with any of the 14 digit characters 1-7 (Latin or Arabic-Indic) is
appended to the open buffer as a continuation line; in particular a leading
digit outside 1..7 is a continuation line.  (A non-opening line that starts
with one of those digits is discarded instead, per the counterexample.) -/
theorem nondigit_line_appended_to_buffer (st : PState) (rawLine : List Char)
    (hcur : st.current.isSome = true) (hne : pyStrip rawLine ≠ [])
    (hdig : startsDigit (pyStrip rawLine) = false) :
    lineStep st rawLine = ⟨st.fields, st.current, st.buf ++ [pyStrip rawLine]⟩ := by
  unfold lineStep
  rw [opensSlot_none_of_not_digit (pyStrip rawLine) hdig]
  simp [hcur, hne, hdig]

/-- Witness for `nondigit_line_appended_to_buffer`: a line starting with the
digit 8 is appended as a continuation line of the open field. -/
theorem nondigit_line_appended_to_buffer_witness :
    lineStep ⟨emptyFields, some 0, ["a".data]⟩ ("8 b".data) =
      ⟨emptyFields, some 0, ["a".data] ++ [pyStrip ("8 b".data)]⟩ :=
  nondigit_line_appended_to_buffer ⟨emptyFields, some 0, ["a".data]⟩ ("8 b".data)
    (by decide) (by decide) (by decide)

/-- C8 counterexample: a line whose marker uses the separator ')' or '-'
does not open field 1 (only '.' opens); the line is dropped entirely and the
goal field stays empty instead of receiving "hello". -/
theorem paren_separator_does_not_open_field :
    (rawParse ("1) hello".data)).goal ≠ "hello".data ∧
    (rawParse ("1- hello".data)).goal ≠ "hello".data ∧
    (rawParse ("1) hello".data)).goal = [] ∧
    (rawParse ("1- hello".data)).goal = [] := by
  refine ⟨by decide, by decide, by decide, by decide⟩

/-- C8 (amended): a line opens slot k exactly for the dot separator: for
every marker digit d of slot k (Latin or Arabic-Indic) and every
newline-free remainder, parsing the single line `d . rest` puts the stripped
remainder into slot k.  The separators ')' and '-' recognized by the claim
do not open a field (see the counterexample). -/
theorem dot_marker_opens_slot (d : Char) (k : Fin 7) (rest : List Char)
    (hmem : (d, k) ∈ markerTable) (hnl : '\n' ∉ rest) :
    (rawParse (d :: '.' :: rest)).get k = pyStrip rest := by
  have hsplit : splitOnChar '\n' (d :: '.' :: rest) = [d :: '.' :: rest] := by
    apply splitOnChar_single
    intro hm
    rcases List.mem_cons.mp hm with h1 | hm2
    · fin_cases hmem <;> simp_all
    · rcases List.mem_cons.mp hm2 with h2 | hm3
      · exact absurd h2.symm (by decide)
      · exact hnl hm3
  have hd : isWs d = false := by fin_cases hmem <;> decide
  have hstrip : pyStrip (d :: '.' :: rest) = d :: '.' :: List.rdropWhile isWs rest :=
    pyStrip_cons2 d '.' rest hd (by decide)
  rw [rawParse, hsplit, List.foldl_cons, List.foldl_nil]
  fin_cases hmem <;>
    simp [lineStep, hstrip, opensSlot, pfx, flushState, joinSp, List.drop,
      pyStrip_idem, pyStrip_rdropWhile, Fields.get_set_self]

/-- Witness for `dot_marker_opens_slot`: the Arabic-Indic marker '٤.' opens
slot 4 (strategies) with the stripped remainder. -/
theorem dot_marker_opens_slot_witness :
    (('٤', (3 : Fin 7)) ∈ markerTable) ∧ ('\n' ∉ " نص ".data) ∧
    (rawParse ('٤' :: '.' :: " نص ".data)).get 3 = pyStrip (" نص ".data) :=
  ⟨by decide, by decide,
   dot_marker_opens_slot '٤' 3 (" نص ".data) (by decide) (by decide)⟩

/-! ### The field enforcer (enrich_and_enforce) and its corpora -/

/-- The `LINGUISTIC_ENRICHMENT` phrase list (src/main.py lines 75-81). -/
def LINGUISTIC_ENRICHMENT : List (List Char) :=
  ["بما يعزز من فاعلية العملية التعليمية ويرتقي بمستوى الممارسات الصفية".data,
   "بما ينسجم مع توجهات التعليم الحديثة ونواتج التعلم المستهدفة".data,
   "بأسلوب مهني يعكس التخطيط الجيد والتنفيذ التربوي الفعال".data,
   "وفق معايير تربوية تسهم في تحسين جودة التعليم داخل الصف".data,
   "وبما يدعم بناء بيئة تعلم محفزة ومشجعة على المشاركة".data]

/-- The `context_keywords` table of `enrich_and_enforce` (lines 477-482), in dict
insertion order. -/
def context_keywords : List (List Char × List (List Char)) :=
  [("تقرير علاجي".data, ["العلاج".data, "الدعم".data, "تحسين".data, "تقدم".data]),
   ("تقرير سلوكي".data, ["السلوك".data, "تحفيز".data, "تعزيز".data, "مكافأة".data]),
   ("تقرير تقييمي".data, ["تقييم".data, "قياس".data, "نتائج".data, "مؤشرات".data]),
   ("تقرير نشاط".data, ["نشاط".data, "مشاركة".data, "تفاعل".data, "تطبيق".data])]

/-- The `enhancements` list used when the text is very short (lines 502-509). -/
def enhancements : List (List Char) :=
  ["بما يعزز من جودة الممارسة التعليمية وينسجم مع أهداف المنهج".data,
   "وذلك لتحقيق نواتج التعلم المستهدفة ورفع مستوى التحصيل الدراسي".data,
   "بما يدعم التطوير المهني المستدام ويعزز فاعلية العملية التعليمية".data,
   "ويسهم في بناء بيئة تعلمية محفزة تدعم الإبداع والتميز".data,
   "وذلك تماشياً مع رؤية التعليم الحديثة واستراتيجياته التطويرية".data,
   "بما يرتقي بالممارسات الصفية ويعزز الشراكة المجتمعية الفاعلة".data]

/-- The fixed closing appended by the clause-aware trim (line 545). -/
def closingTail : List Char := "، مما يسهم في تحقيق الأهداف التربوية المنشودة.".data

/-- Select the enrichment phrase set from the report type: concatenate the
phrase lists of every context keyword occurring in the report type, falling
back to `LINGUISTIC_ENRICHMENT` when none matches (lines 485-492). -/
def selectPhrases (report_type : List Char) : List (List Char) :=
  let ps := context_keywords.foldl
    (fun acc kv => if pyIn kv.1 report_type = true then acc ++ kv.2 else acc) []
  if ps = [] then LINGUISTIC_ENRICHMENT else ps

/-- The `for enhancement in enhancements[:...]` loop (lines 511-514): each
enhancement is appended only while the word count is still below the
minimum. -/
def enhLoop (minW : Nat) : List (List Char) → List Char → List Char
  | [], t => t
  | e :: es, t =>
    enhLoop minW es (if (words t).length < minW then t ++ ' ' :: e else t)

/-- The padding `while` loop (lines 517-524): pick a random phrase; append
it unless one of its first three words already occurs as a substring of the
text.  `fuel` bounds the number of iterations (the Python loop is unbounded);
`i` indexes the stream of random draws.  Returns `none` when the fuel is
exhausted with the count still below the minimum. -/
def padLoop (phrases : List (List Char)) (minW : Nat) (picks : Nat → Nat) :
    Nat → List Char → Nat → Option (List Char × Nat)
  | 0, text, i => if (words text).length < minW then none else some (text, i)
  | fuel + 1, text, i =>
    if (words text).length < minW then
      if ((words (phrases.getD (picks i % phrases.length) [])).take 3).any
          (fun w => pyIn w text) = true then
        padLoop phrases minW picks fuel text (i + 1)
      else
        padLoop phrases minW picks fuel
          (text ++ ' ' :: phrases.getD (picks i % phrases.length) []) (i + 1)
    else some (text, i)

/-- The clause-accumulation loop of the smart trim (lines 531-542):
accumulate comma-separated clauses while the running word count stays within
`maxW - 5`; stop at the first clause that does not fit. -/
def clauseLoop (maxW : Nat) : List (List Char) → List Char → Nat → List Char × Nat
  | [], acc, cw => (acc, cw)
  | sen :: rest, acc, cw =>
    if cw + (words sen).length ≤ maxW - 5 then
      clauseLoop maxW rest (if acc = [] then sen else acc ++ '،' :: ' ' :: sen)
        (cw + (words sen).length)
    else (acc, cw)

/-- The deterministic tail of `enrich_and_enforce` (lines 526-559): trim when
over the maximum (clause-aware cut with fixed closing, else hard truncation),
then collapse double spaces (one pass), strip, and append a final '.' unless
the text already ends in '.', '!' or '؟'. -/
def finalizePart (minW maxW : Nat) (t0 : List Char) : List Char :=
  let t1 :=
    if maxW < (words t0).length then
      let sentences := splitOnChar '،' t0
      let tw :=
        if 1 < sentences.length then
          let p := clauseLoop maxW sentences [] 0
          if minW ≤ p.2 then (p.1 ++ closingTail, words (p.1 ++ closingTail))
          else (t0, words t0)
        else (t0, words t0)
      if maxW < tw.2.length then joinSp (tw.2.take maxW) else tw.1
    else t0
  let t2 := pyStrip (replaceDouble t1)
  match t2.getLast? with
  | none => t2
  | some c => if c = '.' ∨ c = '!' ∨ c = '؟' then t2 else t2 ++ ['.']

/-- Model of `enrich_and_enforce(text, min_words, max_words, report_type)`
(src/main.py lines 467-559).  Empty input (no words) is returned unchanged.
`picks`/`i` model the `random.choice` stream, `fuel` bounds the unbounded
padding loop; `some (text, i2)` carries the next unused draw index. -/
def enrich_and_enforce (fuel : Nat) (picks : Nat → Nat) (i : Nat) (text0 : List Char)
    (minW maxW : Nat) (report_type : List Char) : Option (List Char × Nat) :=
  if (words text0).length = 0 then some (text0, i)
  else
    match
      (if (words text0).length < minW then
        padLoop (selectPhrases report_type) minW picks fuel
          (if (words text0).length < 15 then
            enhLoop minW (enhancements.take (min 2 ((minW - (words text0).length) / 10))) text0
          else text0) i
      else some (text0, i)) with
    | none => none
    | some (t, i2) => some (finalizePart minW maxW t, i2)

/-! ### parse_ai_response: enrichment pass and fallback -/

/-- The seven slots in dict insertion order. -/
def allSlots : List (Fin 7) := [0, 1, 2, 3, 4, 5, 6]

/-- The `DEFAULT_REPORT_TEXTS` corpus (src/main.py lines 295-331), per slot. -/
def defaultTexts (k : Fin 7) : List (List Char) :=
  match k with
  | ⟨0, _⟩ =>
    ["تنمية المهارات الأساسية في المادة وتحقيق الأهداف التعليمية المحددة".data,
     "تحسين مستوى التحصيل الدراسي للطلاب وتعزيز دافعيتهم للتعلم".data,
     "تطبيق استراتيجيات تعليمية متنوعة لتحسين جودة العملية التعليمية".data]
  | ⟨1, _⟩ =>
    ["تقرير يوثق الأنشطة التعليمية المنفذة ونتائجها وفق المعايير التربوية".data,
     "وثيقة تربوية تسجل الجهود المبذولة لتحقيق أهداف الدرس والمنهج".data,
     "تقرير مهني يعكس الممارسات التعليمية الفعالة والتطوير المستمر".data]
  | ⟨2, _⟩ =>
    ["بدأت الحصة بالتهيئة المناسبة ثم الانتقال إلى شرح المفهوم الرئيسي".data,
     "تم تقسيم الطلاب إلى مجموعات تعاونية لممارسة الأنشطة العملية".data,
     "شمل التنفيذ العروض التقديمية والتطبيقات العملية والتقويم المستمر".data]
  | ⟨3, _⟩ =>
    ["استخدام التعلم التعاوني والتعلم القائم على المشاريع".data,
     "توظيف استراتيجيات التفكير الناقد والتعلم النشط".data,
     "دمج التقنية في التعليم واستخدام الوسائل المتعددة".data]
  | ⟨4, _⟩ =>
    ["تفاعل الطلاب الإيجابي ومشاركتهم الفعالة في الأنشطة".data,
     "تنوع الوسائل التعليمية المستخدمة وملاءمتها لأهداف الدرس".data,
     "إدارة الصف الفعالة وتنظيم الوقت بشكل مناسب".data]
  | ⟨5, _⟩ =>
    ["التركيز على الطلاب الضعاف وتقديم دعم إضافي لهم".data,
     "زيادة استخدام التقنية التفاعلية في الشرح والتطبيق".data,
     "تنويع أساليب التقويم لقياس جميع المهارات".data]
  | ⟨6, _⟩ =>
    ["توفير مزيد من التدريب على استراتيجيات التعلم النشط".data,
     "تعزيز الشراكة مع أولياء الأمور لمتابعة التحصيل الدراسي".data,
     "تطوير بنك الأنشطة الإثرائية لدعم المتفوقين".data]
  | ⟨n + 7, h⟩ => absurd h (by omega)

/-- One step of the enrichment pass (`for key in parsed: if parsed[key]:
parsed[key] = enrich_and_enforce(parsed[key], 25, 35, report_type)`). -/
def stepField (fuel : Nat) (picks : Nat → Nat) (rt : List Char) (acc : Fields × Nat)
    (k : Fin 7) : Option (Fields × Nat) :=
  if acc.1.get k = [] then some acc
  else
    match enrich_and_enforce fuel picks acc.2 (acc.1.get k) 25 35 rt with
    | none => none
    | some (v2, i2) => some (acc.1.set k v2, i2)

/-- The enrichment pass over the seven slots in order. -/
def enrichPass (fuel : Nat) (picks : Nat → Nat) (rt : List Char) (f : Fields)
    (i : Nat) : Option (Fields × Nat) :=
  allSlots.foldlM (stepField fuel picks rt) (f, i)

/-- One step of the fallback pass (`parsed[key] =
enrich_and_enforce(random.choice(DEFAULT_REPORT_TEXTS[key]), 25, 35,
report_type)`): one draw selects the default text, then enrichment runs. -/
def fbStep (fuel : Nat) (picks : Nat → Nat) (rt : List Char) (acc : Fields × Nat)
    (k : Fin 7) : Option (Fields × Nat) :=
  match enrich_and_enforce fuel picks (acc.2 + 1)
      ((defaultTexts k).getD (picks acc.2 % (defaultTexts k).length) []) 25 35 rt with
  | none => none
  | some (v2, i2) => some (acc.1.set k v2, i2)

/-- The fallback pass filling every slot from the default corpus. -/
def fallbackFill (fuel : Nat) (picks : Nat → Nat) (rt : List Char) (f : Fields)
    (i : Nat) : Option (Fields × Nat) :=
  allSlots.foldlM (fbStep fuel picks rt) (f, i)

/-- Python `any(parsed.values())` on the field dictionary. -/
def Fields.anyNonEmpty (f : Fields) : Bool :=
  !f.goal.isEmpty || !f.summary.isEmpty || !f.steps.isEmpty || !f.strategies.isEmpty ||
    !f.strengths.isEmpty || !f.improve.isEmpty || !f.recomm.isEmpty

/-- Model of `parse_ai_response(response_text, report_type)` (src/main.py lines
709-794): extract raw fields, enrich the non-empty ones, and only when every
field is still empty fill all seven from the default corpus. -/
def parse_ai_response (fuel : Nat) (picks : Nat → Nat)
    (response_text report_type : List Char) : Option Fields :=
  match enrichPass fuel picks report_type (rawParse response_text) 0 with
  | none => none
  | some (e, i) =>
    if e.anyNonEmpty = true then some e
    else
      match fallbackFill fuel picks report_type e i with
      | none => none
      | some (f2, _) => some f2

/-! ### Claim C9: empty input is returned unchanged by the enforcer -/

/-- C9: if the input has zero words after whitespace split, the enforcer
returns it unchanged (same text, no draws consumed): no padding, no
fallback, no terminal punctuation. -/
theorem enrich_empty_input_unchanged (fuel : Nat) (picks : Nat → Nat) (i : Nat)
    (text : List Char) (minW maxW : Nat) (rt : List Char) (h : words text = []) :
    enrich_and_enforce fuel picks i text minW maxW rt = some (text, i) := by
  unfold enrich_and_enforce
  rw [h]
  rfl

/-- Witness for `enrich_empty_input_unchanged` on the empty string. -/
theorem enrich_empty_input_unchanged_witness :
    words ([] : List Char) = [] ∧
    enrich_and_enforce 5 (fun _ => 0) 0 [] 25 35 [] = some ([], 0) :=
  ⟨rfl, enrich_empty_input_unchanged 5 (fun _ => 0) 0 [] 25 35 [] rfl⟩

/-! ### Claim C2: the fallback corpus is all-or-nothing -/

/-- C2 counterexample: with only markers 1, 2, 3 present the parse succeeds
(some field is non-empty, so the fallback is skipped) but the strategies
field (slot 4) remains empty, contradicting \"exactly 7 non-empty fields\". -/
theorem parse_partial_markers_leaves_strategies_empty :
    (parse_ai_response 20 (fun _ => 2) ("1. a\n2. b\n3. c".data) []).map
      Fields.strategies = some [] ∧
    (parse_ai_response 20 (fun _ => 2) ("1. a\n2. b\n3. c".data) []).map
      Fields.anyNonEmpty = some true := by
  constructor
  · rfl
  · rfl

/-- A step of the enrichment pass never turns an empty slot non-empty. -/
theorem stepField_preserves_empty (fuel : Nat) (picks : Nat → Nat) (rt : List Char)
    (k k' : Fin 7) (f : Fields) (i : Nat) (b : Fields × Nat)
    (hs : stepField fuel picks rt (f, i) k' = some b) (hf : f.get k = []) :
    b.1.get k = [] := by
  by_cases he : k' = k
  · subst he
    rw [stepField] at hs
    simp only [hf, if_pos] at hs
    cases hs
    exact hf
  · rw [stepField] at hs
    by_cases hv : f.get k' = []
    · rw [if_pos hv] at hs
      cases hs
      exact hf
    · rw [if_neg hv] at hs
      cases hen : enrich_and_enforce fuel picks (f, i).2 ((f, i).1.get k') 25 35 rt with
      | none => rw [hen] at hs; cases hs
      | some vi =>
        rw [hen] at hs
        cases hs
        exact (Fields.get_set_ne f k' k vi.1 he).trans hf

/-- The enrichment pass over any slot list preserves empty slots. -/
theorem enrichPass_preserves_empty (fuel : Nat) (picks : Nat → Nat) (rt : List Char)
    (k : Fin 7) :
    ∀ (ks : List (Fin 7)) (f : Fields) (i : Nat) (e : Fields) (j : Nat),
      f.get k = [] →
      List.foldlM (stepField fuel picks rt) (f, i) ks = some (e, j) →
      e.get k = [] := by
  intro ks
  induction ks with
  | nil =>
    intro f i e j hf h
    simp only [List.foldlM_nil] at h
    cases h
    exact hf
  | cons k' ks ih =>
    intro f i e j hf h
    rw [List.foldlM_cons] at h
    cases hs : stepField fuel picks rt (f, i) k' with
    | none => rw [hs] at h; cases h
    | some b =>
      rw [hs] at h
      simp only [Option.bind_eq_bind, Option.some_bind] at h
      exact ih b.1 b.2 e j (stepField_preserves_empty fuel picks rt k k' f i b hs hf) h

/-- C2 (amended): `parse_ai_response` always returns exactly the 7 fields,
but the fallback corpus is applied only when no field parses at all: when
the extraction leaves slot k empty while some other field was extracted,
slot k of the final output is still empty (it is NOT filled from the
fallback corpus). -/
theorem parse_unmatched_slot_stays_empty (fuel : Nat) (picks : Nat → Nat)
    (text rt : List Char) (k : Fin 7) (hraw : (rawParse text).get k = [])
    (hsome : (enrichPass fuel picks rt (rawParse text) 0).map
      (fun p => p.1.anyNonEmpty) = some true) :
    (parse_ai_response fuel picks text rt).map (fun f => f.get k) = some [] := by
  cases he : enrichPass fuel picks rt (rawParse text) 0 with
  | none => rw [he] at hsome; cases hsome
  | some ei =>
    obtain ⟨e, i⟩ := ei
    rw [he] at hsome
    have hany : e.anyNonEmpty = true := Option.some.inj hsome
    have hempty : e.get k = [] :=
      enrichPass_preserves_empty fuel picks rt k allSlots (rawParse text) 0 e i
        hraw (by rw [← he]; rfl)
    have hstep : parse_ai_response fuel picks text rt = some e := by
      simp only [parse_ai_response, he, hany, if_true]
    rw [hstep]
    show some (e.get k) = some []
    rw [hempty]

/-- Witness for `parse_unmatched_slot_stays_empty`: markers 1 and 2 only,
slot 4 (strategies) stays empty in the final output. -/
theorem parse_unmatched_slot_stays_empty_witness :
    ((rawParse ("1. x\n2. y".data)).get 3 = []) ∧
    ((enrichPass 20 (fun _ => 3) [] (rawParse ("1. x\n2. y".data)) 0).map
      (fun p => p.1.anyNonEmpty) = some true) ∧
    (parse_ai_response 20 (fun _ => 3) ("1. x\n2. y".data) []).map
      (fun f => f.get 3) = some [] :=
  ⟨by decide, by rfl,
   parse_unmatched_slot_stays_empty 20 (fun _ => 3) ("1. x\n2. y".data) [] 3
     (by decide) (by rfl)⟩

/-! ### Claim C4: determinism only relative to the random draws -/

/-- C4 counterexample: the pipeline consumes `random.choice` draws, and two
runs on the same input with different draw streams produce different
outputs, so the pipeline is not a pure function of its input alone. -/
theorem parse_depends_on_random_stream :
    parse_ai_response 20 (fun _ => 2) ("1. a".data) [] ≠
      parse_ai_response 20 (fun _ => 3) ("1. a".data) [] := by
  decide

/-- C4 (amended): the pipeline is a pure, deterministic function of its
input TOGETHER WITH the stream of random draws (and the loop fuel): two runs
with pointwise-equal draw streams give identical 7-field output. -/
theorem parse_deterministic_in_input_and_picks (fuel : Nat) (p q : Nat → Nat)
    (text rt : List Char) (h : ∀ n, p n = q n) :
    parse_ai_response fuel p text rt = parse_ai_response fuel q text rt := by
  rw [funext h]

/-- Witness for `parse_deterministic_in_input_and_picks`. -/
theorem parse_deterministic_in_input_and_picks_witness :
    parse_ai_response 20 (fun _ => 2) ("1. a".data) [] =
      parse_ai_response 20 (fun _ => 2) ("1. a".data) [] :=
  parse_deterministic_in_input_and_picks 20 (fun _ => 2) (fun _ => 2) ("1. a".data) []
    (fun _ => rfl)

/-! ### Claim C3: the padding loop can stall below the minimum forever -/

/-- The four one-word context phrases selected for a report type containing
the keyword "تقرير علاجي". -/
def fourWords : List (List Char) :=
  ["العلاج".data, "الدعم".data, "تحسين".data, "تقدم".data]

/-- A 20-word input none of whose words contains any context phrase. -/
def badText : List Char :=
  "t1 t2 t3 t4 t5 t6 t7 t8 t9 t10 t11 t12 t13 t14 t15 t16 t17 t18 t19 t20".data

/-- A report type matching the first context keyword. -/
def badType : List Char := "تقرير علاجي".data

theorem wordsAux_append_ws (c : Char) (hc : isWs c = true) :
    ∀ (a acc b : List Char),
      wordsAux (a ++ c :: b) acc = wordsAux a acc ++ wordsAux b [] := by
  intro a
  induction a with
  | nil =>
    intro acc b
    show wordsAux (c :: b) acc = wordsAux [] acc ++ wordsAux b []
    simp only [wordsAux, hc, if_true]
    by_cases hacc : acc = [] <;> simp [hacc]
  | cons d a ih =>
    intro acc b
    simp only [List.cons_append, wordsAux]
    by_cases hd : isWs d = true
    · simp only [hd, if_true]
      by_cases hacc : acc = [] <;> simp [hacc, ih]
    · rw [Bool.not_eq_true] at hd
      simp only [hd]
      exact ih (d :: acc) b

theorem words_append_word (t u : List Char) :
    words (t ++ ' ' :: u) = words t ++ words u :=
  wordsAux_append_ws ' ' (by decide) t [] u

theorem pfx_iff_isPrefix (n : List Char) : ∀ h : List Char, pfx n h = true ↔ n <+: h := by
  induction n with
  | nil => intro h; simp [pfx]
  | cons a as ih =>
    intro h
    cases h with
    | nil => simp [pfx]
    | cons b bs =>
      simp [pfx, List.cons_prefix_cons, ih bs, Bool.and_eq_true, beq_iff_eq]

theorem pyIn_iff_sub (n : List Char) : ∀ h : List Char, pyIn n h = true ↔ n <:+: h := by
  intro h
  induction h with
  | nil => simp [pyIn, List.isEmpty_iff, List.infix_nil]
  | cons c t ih =>
    simp only [pyIn, Bool.or_eq_true, pfx_iff_isPrefix, ih, List.infix_cons_iff]

theorem pyIn_append_right (n t x : List Char) (h : pyIn n t = true) :
    pyIn n (t ++ x) = true :=
  (pyIn_iff_sub n (t ++ x)).mpr
    (((pyIn_iff_sub n t).mp h).trans (List.prefix_append t x).isInfix)

theorem pyIn_appended_word (t w : List Char) : pyIn w (t ++ ' ' :: w) = true := by
  apply (pyIn_iff_sub w (t ++ ' ' :: w)).mpr
  exact ⟨t ++ [' '], [], by simp⟩

/-- Invariant of the padding loop on `badText`: the text is `badText` plus
some duplicate-free subset of the four context words, each of which now
occurs as a substring. -/
def GoodState (t : List Char) : Prop :=
  ∃ S : List (List Char), S.Nodup ∧ (∀ w ∈ S, w ∈ fourWords) ∧
    words t = words badText ++ S ∧ ∀ w ∈ S, pyIn w t = true

theorem GoodState_words_lt {t : List Char} (hg : GoodState t) :
    (words t).length < 25 := by
  obtain ⟨S, hnd, hsub, hw, -⟩ := hg
  have h20 : (words badText).length = 20 := by decide
  have hS : S.length ≤ fourWords.length :=
    (List.subperm_of_subset hnd fun x hx => hsub x hx).length_le
  have h4 : fourWords.length = 4 := rfl
  rw [hw, List.length_append, h20]
  omega

theorem mem_fourWords_words {w : List Char} (hw : w ∈ fourWords) : words w = [w] := by
  fin_cases hw <;> decide

/-- On `badText` the padding loop never reaches 25 words: each of the four
one-word phrases can be appended at most once (afterwards it occurs as a
substring and is rejected), so the count stalls at or below 24 and the loop
runs out of any amount of fuel. -/
theorem padLoop_fourWords_stalls (picks : Nat → Nat) :
    ∀ (fuel : Nat) (t : List Char) (i : Nat), GoodState t →
      padLoop fourWords 25 picks fuel t i = none := by
  intro fuel
  induction fuel with
  | zero =>
    intro t i hg
    simp [padLoop, GoodState_words_lt hg]
  | succ fuel ih =>
    intro t i hg
    have hlen := GoodState_words_lt hg
    rw [padLoop, if_pos hlen]
    have hm4 : picks i % fourWords.length < 4 := Nat.mod_lt _ (by decide)
    have hmem : fourWords.getD (picks i % fourWords.length) [] ∈ fourWords := by
      have : picks i % fourWords.length = 0 ∨ picks i % fourWords.length = 1 ∨
          picks i % fourWords.length = 2 ∨ picks i % fourWords.length = 3 := by omega
      rcases this with h | h | h | h <;> rw [h] <;> simp [fourWords]
    by_cases hb : ((words (fourWords.getD (picks i % fourWords.length) [])).take 3).any
        (fun w => pyIn w t) = true
    · rw [if_pos hb]
      exact ih t (i + 1) hg
    · rw [if_neg hb]
      obtain ⟨S, hnd, hsub, hw, hin⟩ := hg
      have hone := mem_fourWords_words hmem
      have hnotin : pyIn (fourWords.getD (picks i % fourWords.length) []) t = false := by
        rw [hone] at hb
        simpa using hb
      have hnotS : fourWords.getD (picks i % fourWords.length) [] ∉ S := by
        intro hmemS
        rw [hin _ hmemS] at hnotin
        cases hnotin
      apply ih _ (i + 1)
      refine ⟨S ++ [fourWords.getD (picks i % fourWords.length) []], ?_, ?_, ?_, ?_⟩
      · rw [List.nodup_append]
        exact ⟨hnd, List.nodup_singleton _, fun a ha hb2 =>
          hnotS ((List.mem_singleton.mp hb2) ▸ ha)⟩
      · intro w hw2
        rcases List.mem_append.mp hw2 with h | h
        · exact hsub w h
        · exact (List.mem_singleton.mp h) ▸ hmem
      · rw [words_append_word, hone, hw, List.append_assoc]
      · intro w hw2
        rcases List.mem_append.mp hw2 with h | h
        · exact pyIn_append_right w t _ (hin w h)
        · rw [List.mem_singleton.mp h]
          exact pyIn_appended_word t _

/-- C3: the word-band guarantee fails by non-termination: on a 20-word input
whose report type selects the four one-word context phrases, the padding
loop of `enrich_and_enforce` stalls at 24 words and never terminates — for
every amount of fuel and every stream of random draws the model returns
`none`, so the Python function never returns a 25-35-word result. -/
theorem enrich_diverges_on_blocked_input (fuel : Nat) (picks : Nat → Nat) (i : Nat) :
    enrich_and_enforce fuel picks i badText 25 35 badType = none := by
  have hsel : selectPhrases badType = fourWords := by rfl
  have hg : GoodState badText := ⟨[], List.nodup_nil, by simp, by simp, by simp⟩
  have hstall := padLoop_fourWords_stalls picks fuel badText i hg
  have hlen : (words badText).length = 20 := by decide
  unfold enrich_and_enforce
  rw [hlen, hsel]
  simp [hstall]
